import Mathlib

/-!
Verification of the Q1.15 golden-vector generator (`sim/gen.py`).

The script quantizes real matrices to Q1.15 (`to_q15`) and computes a
golden matrix product with 16x16->32 products, a wide accumulator,
bias-and-shift rounding, and saturation.  Floating-point inputs are
embedded as rationals: the script multiplies by the power of two
`32768.0` (exact in binary floating point) and rounds with `np.round`
(round half to even), so the rational model is exact.
-/

namespace SystolicGen

/-- `np.clip(v, lo, hi)`: clamp `v` into `[lo, hi]`. -/
def clip (lo hi v : ℤ) : ℤ := max lo (min hi v)

/-- `np.round`: round to the nearest integer, ties to even. -/
def roundHalfEven (q : ℚ) : ℤ :=
  if Int.fract q < 1/2 then ⌊q⌋
  else if 1/2 < Int.fract q then ⌊q⌋ + 1
  else if ⌊q⌋ % 2 = 0 then ⌊q⌋ else ⌊q⌋ + 1

/-- `to_q15` (gen.py lines 4-6): scale by `32768.0`, round, clamp to
the signed 16-bit range. -/
def to_q15 (x : ℚ) : ℤ := clip (-32768) 32767 (roundHalfEven (x * 32768))

/-- `to_q15` applied elementwise to a matrix, as the script does via
numpy broadcasting. -/
def to_q15_mat (m : List (List ℚ)) : List (List ℤ) :=
  m.map (fun r => r.map to_q15)

/-- Arithmetic right shift of a signed value (`np.right_shift` on a
signed integer array): floor division by `2 ^ n`. -/
def asr (v : ℤ) (n : ℕ) : ℤ := Int.fdiv v (2 ^ n)

/-- The accumulator `sum40` for one output element (gen.py line 25):
the sum of the four partial products of a row of `A_q` with a column
of `B_q`. -/
def acc4 (a b : Fin 4 → ℤ) : ℤ := ∑ k, a k * b k

/-- One golden output element (gen.py lines 24-27): accumulate the
four products, add the rounding bias `2^14`, arithmetic-shift right by
15, saturate to `[-32768, 32767]`. -/
def goldenElem (a b : Fin 4 → ℤ) : ℤ :=
  clip (-32768) 32767 (asr (acc4 a b + 2 ^ 14) 15)

/-- The golden matrix `C_q` (gen.py lines 24-27): element `(i, j)` is
computed from row `i` of `A_q` and column `j` of `B_q`. -/
def golden (N : ℕ) (A : Fin N → Fin 4 → ℤ) (B : Fin 4 → Fin N → ℤ) :
    Fin N → Fin N → ℤ :=
  fun i j => goldenElem (A i) (fun k => B k j)

/-- The argparse guard `choices=[4,8,16]` on `--N` (gen.py line 10). -/
def validN (n : ℕ) : Bool := n == 4 || n == 8 || n == 16

/-- A random source: from a seed, produce the real operand matrices
`A` (`N x 4`) and `B` (`4 x N`), as `np.random.default_rng(seed)` with
`rng.uniform` does (gen.py lines 16-18). -/
def RngSource (n : ℕ) : Type :=
  ℕ → (Fin n → Fin 4 → ℚ) × (Fin 4 → Fin n → ℚ)

/-- A full generator run (gen.py `main`): the size is validated by the
argparse `choices` guard before anything is computed; on success the
run produces the quantized operands and the golden result. -/
def run (n : ℕ) (seed : ℕ) (rng : RngSource n) :
    Option ((Fin n → Fin 4 → ℤ) × (Fin 4 → Fin n → ℤ) × (Fin n → Fin n → ℤ)) :=
  if validN n then
    let AB := rng seed
    let Aq : Fin n → Fin 4 → ℤ := fun i k => to_q15 (AB.1 i k)
    let Bq : Fin 4 → Fin n → ℤ := fun k j => to_q15 (AB.2 k j)
    some (Aq, Bq, golden n Aq Bq)
  else
    none

/-- The Quantizer as §4.1 of the spec words it: scale by `32768.0`,
round to nearest with ties to even, clamp to `[-32768, 32767]`. -/
def quantizeSpec (x : ℚ) : ℤ :=
  max (-32768) (min 32767 (roundHalfEven (x * 32768)))

/-- Concrete operand row for the spec's 1x4 by 4x1 case. -/
def specRowA : Fin 4 → ℤ := ![32767, 0, 0, 0]

/-- Concrete operand column for the spec's 1x4 by 4x1 case. -/
def specColB : Fin 4 → ℤ := ![16384, 0, 0, 0]

end SystolicGen

namespace SystolicGen

/-- Rounding an integer value changes nothing. -/
lemma roundHalfEven_intCast (n : ℤ) : roundHalfEven (n : ℚ) = n := by
  unfold roundHalfEven
  simp [Int.fract_intCast, Int.floor_intCast]

/-- C8: the Quantizer saturates at and beyond the representable range:
`1.0 ↦ 32767`, `-1.0 ↦ -32768`, `2.0 ↦ 32767`, `-2.0 ↦ -32768`. -/
theorem to_q15_saturation_boundary :
    to_q15 1 = 32767 ∧ to_q15 (-1) = -32768 ∧
    to_q15 2 = 32767 ∧ to_q15 (-2) = -32768 := by
  unfold to_q15
  refine ⟨?_, ?_, ?_, ?_⟩
  · have h : ((1 : ℚ) * 32768) = ((32768 : ℤ) : ℚ) := by norm_num
    rw [h, roundHalfEven_intCast]; decide
  · have h : ((-1 : ℚ) * 32768) = ((-32768 : ℤ) : ℚ) := by norm_num
    rw [h, roundHalfEven_intCast]; decide
  · have h : ((2 : ℚ) * 32768) = ((65536 : ℤ) : ℚ) := by norm_num
    rw [h, roundHalfEven_intCast]; decide
  · have h : ((-2 : ℚ) * 32768) = ((-65536 : ℤ) : ℚ) := by norm_num
    rw [h, roundHalfEven_intCast]; decide

/-- C3: every element the system produces lies in `[-32768, 32767]`:
quantized operand elements are `to_q15` values and golden result
elements are `goldenElem` values, and both are clamped into range. -/
theorem fixedMatrix_range_invariant :
    (∀ x : ℚ, -32768 ≤ to_q15 x ∧ to_q15 x ≤ 32767) ∧
    (∀ a b : Fin 4 → ℤ, -32768 ≤ goldenElem a b ∧ goldenElem a b ≤ 32767) := by
  constructor
  · intro x
    unfold to_q15 clip
    constructor
    · exact le_max_left _ _
    · exact max_le (by norm_num) (min_le_left _ _)
  · intro a b
    unfold goldenElem clip
    constructor
    · exact le_max_left _ _
    · exact max_le (by norm_num) (min_le_left _ _)

/-- C5 counterexample: on A = [[32767,0,0,0]], B = [[16384;0;0;0]] the
golden model does not produce 16368. -/
theorem golden_concrete_not_16368 :
    goldenElem specRowA specColB ≠ 16368 := by decide

/-- C5 (amended): on A = [[32767,0,0,0]], B = [[16384;0;0;0]] the single
nonzero product is `32767 * 16384 = 536854528`; adding the bias gives
`2^29`, shifting right 15 gives `16384`, in range, so C = [[16384]]. -/
theorem golden_concrete_case :
    acc4 specRowA specColB = 536854528 ∧
    goldenElem specRowA specColB = 16384 := by
  constructor <;> decide

/-- C2: whenever the biased-and-shifted accumulator exceeds 32767, the
golden model stores exactly 32767 — the value is clamped, never
wrapped. -/
theorem golden_saturates_high (a b : Fin 4 → ℤ)
    (h : 32767 < asr (acc4 a b + 2 ^ 14) 15) :
    goldenElem a b = 32767 := by
  unfold goldenElem clip
  rw [min_eq_left h.le]
  exact max_eq_right (by norm_num)

/-- Operands for the C2 witness: all four partial products maximal. -/
def satA : Fin 4 → ℤ := fun _ => 32767

/-- Second operand for the C2 witness. -/
def satB : Fin 4 → ℤ := fun _ => 32767

/-- C2 witness: with all four products equal to `32767 * 32767`, the
shifted sum exceeds 32767 and the stored value is exactly 32767. -/
theorem golden_saturates_high_witness :
    32767 < asr (acc4 satA satB + 2 ^ 14) 15 ∧ goldenElem satA satB = 32767 :=
  ⟨by decide, golden_saturates_high satA satB (by decide)⟩

/-- C4: the Quantizer is an elementwise, shape-preserving map sending
each element `x` to `x * 32768` rounded half-to-even and clamped to
`[-32768, 32767]`, exactly the formula §4.1 of the spec states. -/
theorem quantizer_contract (m : List (List ℚ)) :
    (to_q15_mat m).length = m.length ∧
    (∀ i : ℕ, ((to_q15_mat m)[i]?).map List.length = (m[i]?).map List.length) ∧
    (∀ i j : ℕ, ((to_q15_mat m)[i]?.bind fun r => r[j]?) =
      (m[i]?.bind fun r => r[j]?).map quantizeSpec) := by
  refine ⟨by simp [to_q15_mat], ?_, ?_⟩
  · intro i
    simp only [to_q15_mat, List.getElem?_map]
    cases m[i]? <;> simp
  · intro i j
    simp only [to_q15_mat, List.getElem?_map]
    cases m[i]? with
    | none => rfl
    | some r =>
      show ((r.map to_q15)[j]?) = (r[j]?).map quantizeSpec
      rw [List.getElem?_map]
      rfl

/-- C4 witness: the contract instantiated at a concrete 1x2 matrix. -/
theorem quantizer_contract_witness :
    (to_q15_mat [[0, 1/2]]).length = [[(0 : ℚ), 1/2]].length ∧
    (∀ i : ℕ, ((to_q15_mat [[0, 1/2]])[i]?).map List.length =
      ([[(0 : ℚ), 1/2]][i]?).map List.length) ∧
    (∀ i j : ℕ, ((to_q15_mat [[0, 1/2]])[i]?.bind fun r => r[j]?) =
      (([[(0 : ℚ), 1/2]][i]?.bind fun r => r[j]?)).map quantizeSpec) :=
  quantizer_contract [[0, 1/2]]

/-- C6: the run is a pure function of `(N, seed)` and the random
source — two runs with the same supported size, seed, and source
produce identical operand and golden matrices. -/
theorem run_deterministic (n seed : ℕ) (rng1 rng2 : RngSource n)
    (_hv : validN n = true) (h : rng1 = rng2) :
    run n seed rng1 = run n seed rng2 := by
  rw [h]

/-- A concrete constant random source for the C6 witness. -/
def detRng : RngSource 4 := fun _ => (fun _ _ => 1/2, fun _ _ => 1/4)

/-- C6 witness: two runs at `(N, seed) = (4, 7)` with the same source
coincide. -/
theorem run_deterministic_witness :
    validN 4 = true ∧ run 4 7 detRng = run 4 7 detRng :=
  ⟨by decide, run_deterministic 4 7 detRng detRng (by decide) rfl⟩

/-- C7: an unsupported size is rejected by the argparse guard before
any quantization or golden-model computation, and the run yields no
output at all. -/
theorem invalid_size_rejected (n seed : ℕ) (rng : RngSource n)
    (h : validN n = false) :
    run n seed rng = none := by
  simp [run, h]

/-- A concrete random source at the unsupported size 5 for the C7
witness. -/
def badRng : RngSource 5 := fun _ => (fun _ _ => 1/2, fun _ _ => 1/4)

/-- C7 witness: size 5 is rejected and the run produces nothing. -/
theorem invalid_size_rejected_witness :
    validN 5 = false ∧ run 5 0 badRng = none :=
  ⟨by decide, invalid_size_rejected 5 0 badRng (by decide)⟩

/-- Product of two values in the signed 16-bit range is bounded by
`2 ^ 30` in magnitude. -/
lemma q15_mul_bounds (a b : ℤ) (ha1 : -32768 ≤ a) (ha2 : a ≤ 32767)
    (hb1 : -32768 ≤ b) (hb2 : b ≤ 32767) :
    -(2 ^ 30) ≤ a * b ∧ a * b ≤ 2 ^ 30 := by
  constructor <;>
    nlinarith [mul_nonneg (by linarith : (0:ℤ) ≤ a + 32768) (by linarith : (0:ℤ) ≤ b + 32768),
      mul_nonneg (by linarith : (0:ℤ) ≤ 32767 - a) (by linarith : (0:ℤ) ≤ 32767 - b),
      mul_nonneg (by linarith : (0:ℤ) ≤ a + 32768) (by linarith : (0:ℤ) ≤ 32767 - b),
      mul_nonneg (by linarith : (0:ℤ) ≤ 32767 - a) (by linarith : (0:ℤ) ≤ b + 32768)]

/-- C1: for in-range Q1.15 operands, each golden output element is the
exact integer sum of the four products, biased by `2 ^ 14`,
arithmetically shifted right 15, and saturated; every product fits a
32-bit signed word and the biased accumulator fits a 40-bit signed
word, so no intermediate value wraps. -/
theorem golden_exact_no_overflow (N : ℕ) (A : Fin N → Fin 4 → ℤ)
    (B : Fin 4 → Fin N → ℤ)
    (hA : ∀ i k, -32768 ≤ A i k ∧ A i k ≤ 32767)
    (hB : ∀ k j, -32768 ≤ B k j ∧ B k j ≤ 32767) (i j : Fin N) :
    golden N A B i j =
      clip (-32768) 32767 (asr ((∑ k : Fin 4, A i k * B k j) + 2 ^ 14) 15) ∧
    (∀ k : Fin 4, -(2 ^ 31) < A i k * B k j ∧ A i k * B k j < 2 ^ 31) ∧
    (-(2 ^ 39) < (∑ k : Fin 4, A i k * B k j) + 2 ^ 14 ∧
      (∑ k : Fin 4, A i k * B k j) + 2 ^ 14 < 2 ^ 39) := by
  have hk : ∀ k : Fin 4, -(2 ^ 30) ≤ A i k * B k j ∧ A i k * B k j ≤ 2 ^ 30 :=
    fun k => q15_mul_bounds _ _ (hA i k).1 (hA i k).2 (hB k j).1 (hB k j).2
  refine ⟨rfl, ?_, ?_⟩
  · intro k
    have := hk k
    constructor <;> linarith [this.1, this.2]
  · rw [Fin.sum_univ_four]
    have h0 := hk 0
    have h1 := hk 1
    have h2 := hk 2
    have h3 := hk 3
    constructor <;> linarith [h0.1, h0.2, h1.1, h1.2, h2.1, h2.2, h3.1, h3.2]

/-- First operand for the C1 witness: a maximal-magnitude matrix. -/
def exA : Fin 4 → Fin 4 → ℤ := fun _ _ => 32767

/-- Second operand for the C1 witness: the most negative matrix. -/
def exB : Fin 4 → Fin 4 → ℤ := fun _ _ => -32768

/-- C1 witness: the exactness and no-overflow facts at the concrete
extreme operand pair. -/
theorem golden_exact_no_overflow_witness :
    golden 4 exA exB 0 0 =
      clip (-32768) 32767 (asr ((∑ k : Fin 4, exA 0 k * exB k 0) + 2 ^ 14) 15) ∧
    (∀ k : Fin 4, -(2 ^ 31) < exA 0 k * exB k 0 ∧ exA 0 k * exB k 0 < 2 ^ 31) ∧
    (-(2 ^ 39) < (∑ k : Fin 4, exA 0 k * exB k 0) + 2 ^ 14 ∧
      (∑ k : Fin 4, exA 0 k * exB k 0) + 2 ^ 14 < 2 ^ 39) :=
  golden_exact_no_overflow 4 exA exB
    (fun i k => by constructor <;> norm_num [exA])
    (fun k j => by constructor <;> norm_num [exB]) 0 0

/-- C10: each golden element `C[i][j]` depends only on row `i` of `A`
and column `j` of `B`: operand pairs agreeing there produce the same
element, whatever the other rows and columns hold. -/
theorem golden_elem_local (N : ℕ) (A A' : Fin N → Fin 4 → ℤ)
    (B B' : Fin 4 → Fin N → ℤ) (i j : Fin N)
    (hA : A i = A' i) (hB : ∀ k, B k j = B' k j) :
    golden N A B i j = golden N A' B' i j := by
  unfold golden
  rw [hA]
  congr 1
  funext k
  exact hB k

/-- First operand pair for the C10 witness: the two matrices agree on
row 0 and differ on every other row. -/
def locA : Fin 4 → Fin 4 → ℤ := fun i k => if i = 0 then (k : ℤ) else 7

/-- Altered first operand for the C10 witness. -/
def locA' : Fin 4 → Fin 4 → ℤ := fun i k => if i = 0 then (k : ℤ) else 9

/-- Second operand pair for the C10 witness: the two matrices agree on
column 0 and differ on every other column. -/
def locB : Fin 4 → Fin 4 → ℤ := fun k j => if j = 0 then (k : ℤ) + 1 else 3

/-- Altered second operand for the C10 witness. -/
def locB' : Fin 4 → Fin 4 → ℤ := fun k j => if j = 0 then (k : ℤ) + 1 else 5

/-- C10 witness: changing every row of `A` but row 0 and every column
of `B` but column 0 leaves `C[0][0]` unchanged. -/
theorem golden_elem_local_witness :
    golden 4 locA locB 0 0 = golden 4 locA' locB' 0 0 :=
  golden_elem_local 4 locA locA' locB locB' 0 0
    (by funext k; simp [locA, locA']) (fun k => by simp [locB, locB'])

/-- Round-half-even lands on the floor or the floor plus one. -/
lemma floor_le_roundHalfEven (q : ℚ) :
    ⌊q⌋ ≤ roundHalfEven q ∧ roundHalfEven q ≤ ⌊q⌋ + 1 := by
  unfold roundHalfEven
  split_ifs <;> omega

/-- Round-half-even moves a value by at most one half. -/
lemma abs_roundHalfEven_sub_le (q : ℚ) :
    |(roundHalfEven q : ℚ) - q| ≤ 1 / 2 := by
  have hf0 : 0 ≤ Int.fract q := Int.fract_nonneg q
  have hf1 : Int.fract q < 1 := Int.fract_lt_one q
  have hq : ((⌊q⌋ : ℤ) : ℚ) = q - Int.fract q := by
    have h := Int.self_sub_floor q
    linarith
  unfold roundHalfEven
  split_ifs with h1 h2 h3
  · rw [abs_le]
    constructor <;> linarith
  · rw [abs_le]
    constructor <;> push_cast <;> linarith
  · have he : Int.fract q = 1 / 2 := le_antisymm (not_lt.mp h2) (not_lt.mp h1)
    rw [abs_le]
    constructor <;> linarith
  · have he : Int.fract q = 1 / 2 := le_antisymm (not_lt.mp h2) (not_lt.mp h1)
    rw [abs_le]
    constructor <;> push_cast <;> linarith

/-- C9: for `x` in `[-1, 1)`, reinterpreting the quantized value at
scale `2 ^ 15` recovers `x` to within one LSB step `1 / 32768`. -/
theorem quantization_roundtrip (x : ℚ) (hx1 : -1 ≤ x) (hx2 : x < 1) :
    |(to_q15 x : ℚ) / 32768 - x| ≤ 1 / 32768 := by
  set t : ℚ := x * 32768 with ht
  have ht1 : (-32768 : ℚ) ≤ t := by rw [ht]; linarith
  have ht2 : t < 32768 := by rw [ht]; linarith
  have hfl1 : (-32768 : ℤ) ≤ ⌊t⌋ := by
    rw [Int.le_floor]; push_cast; linarith
  have hfl2 : ⌊t⌋ ≤ 32767 := by
    have h := Int.floor_lt.mpr (show t < ((32768 : ℤ) : ℚ) by push_cast; linarith)
    omega
  obtain ⟨hr1, hr2⟩ := floor_le_roundHalfEven t
  have habs := abs_roundHalfEven_sub_le t
  set r : ℤ := roundHalfEven t with hrdef
  have hto : to_q15 x = clip (-32768) 32767 r := rfl
  have key : |((clip (-32768) 32767 r : ℤ) : ℚ) - t| ≤ 1 := by
    by_cases hc : r ≤ 32767
    · have hcl : clip (-32768) 32767 r = r := by
        unfold clip
        rw [min_eq_right hc]
        exact max_eq_right (by omega)
      rw [hcl]
      have := abs_le.mp habs
      rw [abs_le]
      constructor <;> linarith [this.1, this.2]
    · push_neg at hc
      have hr38 : r = 32768 := by omega
      have hcl : clip (-32768) 32767 r = 32767 := by
        unfold clip
        rw [min_eq_left (by omega : (32767 : ℤ) ≤ r)]
        norm_num
      rw [hcl]
      have hlow : (r : ℚ) - t ≤ 1 / 2 := (abs_le.mp habs).2
      rw [hr38] at hlow
      push_cast at hlow
      rw [abs_le]
      constructor <;> push_cast <;> linarith
  have hsplit : (↑(to_q15 x) : ℚ) / 32768 - x =
      (((clip (-32768) 32767 r : ℤ) : ℚ) - t) / 32768 := by
    rw [hto, ht]; ring
  rw [hsplit, abs_div, abs_of_pos (show (0 : ℚ) < 32768 by norm_num)]
  rw [div_le_div_iff₀ (by norm_num) (by norm_num)]
  linarith

/-- C9 witness: the round-trip bound at the exactly representable
input `x = -1`. -/
theorem quantization_roundtrip_witness :
    |(to_q15 (-1) : ℚ) / 32768 - (-1)| ≤ 1 / 32768 :=
  quantization_roundtrip (-1) (by norm_num) (by norm_num)

end SystolicGen
